import Mathlib

/-!
Verification of the game-simulation core of `rusty_tetris`
(`src/game/inner.rs`).

The board dimensions `NUM_COLS` and `NUM_ROWS` are crate constants supplied
by the embedding environment (`crate::game::game`), not part of the
simulation file; every definition below takes them as explicit parameters
`NC` and `NR`.  Rust `i32` values are modelled as `Int`, `u32`/`usize`
counters as `Nat` (they are only ever decremented when positive), and the
`VecDeque<String>` key buffer as a `List String` with the front at the head.
The thread-local random generator is modelled as a stream `rand : Nat → Fin 5`
together with a consumption index `rand_idx`: `rng.gen_range(0, 5)` reads
`rand rand_idx` and bumps the index, which covers every possible sequence of
draws.  The unbounded `loop` in `get_interception_point` is modelled with an
explicit fuel argument, `none` meaning the loop would not have returned
within `fuel` iterations.  Rendering (`draw`, canvas plumbing) mutates no
simulation state and is omitted.
-/

namespace RustyTetris

/-- Integer grid vector, from `struct Vector2D { x: i32, y: i32 }`. -/
structure Vector2D where
  x : Int
  y : Int
  deriving DecidableEq, Repr

/-- A locked board cell, from `struct Square { position, color, purgatory }`. -/
structure Square where
  position : Vector2D
  color : String
  purgatory : Bool
  deriving DecidableEq, Repr

/-- A falling piece, from `struct Piece { top_left, size, squares, color }`;
`squares` are cell offsets from the `top_left` anchor. -/
structure Piece where
  top_left : Vector2D
  size : Int
  squares : List Vector2D
  color : String
  deriving DecidableEq, Repr

/-- `const MIN_SPEED: u32 = 5`. -/
def MIN_SPEED : Nat := 5

/-- `const MAX_KEY_BUFF_LEN: usize = 3`. -/
def MAX_KEY_BUFF_LEN : Nat := 3

/-- `const FRAMES_BEFORE_WE_SEAL_MOVE: u32 = 8`. -/
def FRAMES_BEFORE_WE_SEAL_MOVE : Nat := 8

/-- `const FRAMES_TO_SHOW_PURGATORY: u32 = 2`. -/
def FRAMES_TO_SHOW_PURGATORY : Nat := 2

def COLOR_LINE : String := "blue"
def COLOR_PYRAMID : String := "white"
def COLOR_SQUIGGLE : String := "green"
def COLOR_REVERSE_SQUIGGLE : String := "red"
def COLOR_SQUARE : String := "orange"

/-- `Inner::does_collide`: some occupied cell of the piece is left of
column 0, at or right of column `NC`, at or below row `NR`, or coincides
with a cell already on the board.  (The source checks `x < 0`, `x >= NUM_COLS`,
`y >= NUM_ROWS`, then scans every board row; note there is no `y < 0` test.) -/
def does_collide (NC NR : Int) (p : Piece) (board : List (List Square)) : Bool :=
  p.squares.any fun sq =>
    let x := p.top_left.x + sq.x
    let y := p.top_left.y + sq.y
    decide (x < 0) || decide (NC ≤ x) || decide (NR ≤ y) ||
      board.any fun row => row.any fun c =>
        decide (x = c.position.x) && decide (y = c.position.y)

/-- `Inner::rotate_clockwise`: `square.y = size - 1 - square.y` then swap
`x` and `y`, i.e. each offset `(x, y)` becomes `(size - 1 - y, x)`. -/
def rotate_clockwise (p : Piece) : Piece :=
  { p with squares := p.squares.map fun sq => { x := p.size - 1 - sq.y, y := sq.x } }

/-- `Inner::rotate_counter_clockwise`: `square.x = size - 1 - square.x` then
swap `x` and `y`, i.e. each offset `(x, y)` becomes `(y, size - 1 - x)`. -/
def rotate_counter_clockwise (p : Piece) : Piece :=
  { p with squares := p.squares.map fun sq => { x := sq.y, y := p.size - 1 - sq.x } }

/-- One downward step of the anchor (`current_piece.top_left.y += 1`). -/
def moveDown1 (p : Piece) : Piece :=
  { p with top_left := { p.top_left with y := p.top_left.y + 1 } }

/-- `Inner::get_interception_point`: starting from a clone of the piece,
repeatedly step down and return the number of collision-free steps (the
source's `extra_y - 1` at the first collision).  The source uses an
unbounded `loop`; `fuel` bounds it here and `none` means the loop would not
have returned within `fuel` steps. -/
def get_interception_point (NC NR : Int) (fuel : Nat) (p : Piece)
    (board : List (List Square)) : Option Int :=
  match fuel with
  | 0 => none
  | fuel + 1 =>
    let p2 := moveDown1 p
    if does_collide NC NR p2 board then some 0
    else (get_interception_point NC NR fuel p2 board).map (· + 1)

/-- `Inner::get_random_piece`: the five literal pieces, selected by the
result of `rng.gen_range(0, 5)`. -/
def get_random_piece (NC : Int) (i : Fin 5) : Piece :=
  match i with
  | ⟨0, _⟩ =>
    { color := COLOR_LINE, top_left := { x := NC / 2 - 2, y := 0 }, size := 4,
      squares := [⟨0, 1⟩, ⟨1, 1⟩, ⟨2, 1⟩, ⟨3, 1⟩] }
  | ⟨1, _⟩ =>
    { color := COLOR_PYRAMID, top_left := { x := NC / 2 - 2, y := 0 }, size := 3,
      squares := [⟨1, 0⟩, ⟨0, 1⟩, ⟨1, 1⟩, ⟨2, 1⟩] }
  | ⟨2, _⟩ =>
    { color := COLOR_SQUIGGLE, top_left := { x := NC / 2 - 2, y := 0 }, size := 3,
      squares := [⟨1, 1⟩, ⟨2, 1⟩, ⟨0, 2⟩, ⟨1, 2⟩] }
  | ⟨3, _⟩ =>
    { color := COLOR_REVERSE_SQUIGGLE, top_left := { x := NC / 2 - 2, y := 0 }, size := 3,
      squares := [⟨1, 1⟩, ⟨0, 1⟩, ⟨2, 2⟩, ⟨1, 2⟩] }
  | ⟨4, _⟩ =>
    { color := COLOR_SQUARE, top_left := { x := NC / 2 - 1, y := 0 }, size := 2,
      squares := [⟨0, 0⟩, ⟨0, 1⟩, ⟨1, 0⟩, ⟨1, 1⟩] }
  | ⟨n + 5, h⟩ => absurd h (by omega)

/-- The simulation state of `struct Inner` (rendering fields omitted; the
random generator is a stream plus consumption index, see the file header). -/
structure Inner where
  should_show_focus_banner : Bool
  is_paused : Bool
  is_game_over : Bool
  did_win : Bool
  score : Nat
  key_buff : List String
  current_piece : Option Piece
  swapped_piece : Option Piece
  board_pieces : List (List Square)
  frames_between_updates : Nat
  frames_until_update : Nat
  frames_since_last_successful_move : Nat
  frames_to_wait : Nat
  should_send_to_bottom : Bool
  should_swap_piece : Bool
  rotations_to_perform : Int
  x_to_move : Int
  rand : Nat → Fin 5
  rand_idx : Nat

/-- `Inner::new` (simulation fields). -/
def Inner.new (rand : Nat → Fin 5) : Inner where
  should_show_focus_banner := false
  is_paused := false
  is_game_over := false
  did_win := false
  score := 0
  key_buff := []
  current_piece := none
  swapped_piece := none
  board_pieces := []
  frames_between_updates := MIN_SPEED
  frames_until_update := 0
  frames_since_last_successful_move := 0
  frames_to_wait := 0
  should_send_to_bottom := false
  should_swap_piece := false
  rotations_to_perform := 0
  x_to_move := 0
  rand := rand
  rand_idx := 0

/-- `Inner::reset`. -/
def Inner.reset (s : Inner) : Inner :=
  { s with is_game_over := false, did_win := false, score := 0,
           frames_between_updates := MIN_SPEED, frames_until_update := MIN_SPEED,
           current_piece := none, board_pieces := [], frames_to_wait := 0 }

/-- `Inner::effectively_paused`. -/
def Inner.effectively_paused (s : Inner) : Bool :=
  s.should_show_focus_banner || s.is_paused || s.is_game_over

/-- `Inner::handle_key`: append only while the buffer is below capacity. -/
def Inner.handle_key (s : Inner) (key : String) : Inner :=
  if s.key_buff.length < MAX_KEY_BUFF_LEN then { s with key_buff := s.key_buff ++ [key] }
  else s

/-- `Inner::pre_process_keys`: peek at the buffer head, handle `"r"` and
`"Enter"` immediately (popping them), then clear the whole buffer when the
game is effectively paused. -/
def Inner.pre_process_keys (s : Inner) : Inner :=
  let s1 :=
    match s.key_buff with
    | [] => s
    | key :: rest =>
      if key = "r" then Inner.reset { s with key_buff := rest }
      else if key = "Enter" then
        if s.is_game_over then Inner.reset { s with key_buff := rest }
        else { s with is_paused := !s.is_paused, key_buff := rest }
      else s
  if s1.effectively_paused then { s1 with key_buff := [] } else s1

/-- `Inner::process_key`: pop one token and map it to an accumulator
mutation (the source pops first and drops the token when effectively
paused). -/
def Inner.process_key (s : Inner) : Inner :=
  match s.key_buff with
  | [] => s
  | key :: rest =>
    let s1 := { s with key_buff := rest }
    if s1.effectively_paused then s1
    else if key = "ArrowUp" then { s1 with rotations_to_perform := s1.rotations_to_perform + 1 }
    else if key = "ArrowDown" then { s1 with rotations_to_perform := s1.rotations_to_perform - 1 }
    else if key = "ArrowRight" then { s1 with x_to_move := 1 }
    else if key = "ArrowLeft" then { s1 with x_to_move := -1 }
    else if key = " " then { s1 with should_send_to_bottom := true }
    else if key = "s" then { s1 with should_swap_piece := true }
    else s1

/-- The swap block at the top of `Inner::update`: consume the flag, move the
current piece to the hold slot, and bring the previously held piece (if any)
into play with its anchor row reset to 0. -/
def applySwap (s : Inner) : Inner :=
  if s.should_swap_piece then
    let s1 := { s with should_swap_piece := false, swapped_piece := s.current_piece,
                       current_piece := none }
    match s.swapped_piece with
    | none => s1
    | some p => { s1 with current_piece := some { p with top_left := { p.top_left with y := 0 } } }
  else s

/-- The `cell.position.y += 1` shift applied to a whole row bucket. -/
def shiftRowDown (row : List Square) : List Square :=
  row.map fun c => { c with position := { c.position with y := c.position.y + 1 } }

/-- The row-clearing loop of the spawn branch of `Inner::update`: iterate
the row buckets from the highest index down to 0; a bucket holding exactly
`NUM_COLS` cells is removed and every bucket at a higher index (already
processed) has its cells shifted down one row.  The source loop runs from
high to low indices, so the recursion processes the tail (higher indices)
first. -/
def clearFullRows (NC : Int) : List (List Square) → List (List Square)
  | [] => []
  | row :: rest =>
    let rest1 := clearFullRows NC rest
    if row.length = NC.toNat then rest1.map shiftRowDown
    else row :: rest1

/-- The `while self.board_pieces.len() <= ty { push(vec![]) }` padding. -/
def extendTo (board : List (List Square)) (ty : Nat) : List (List Square) :=
  board ++ List.replicate (ty + 1 - board.length) []

/-- Push one merged cell onto row bucket `ty` (creating buckets on demand). -/
def addSquare (color : String) (x y : Int) (ty : Nat)
    (board : List (List Square)) : List (List Square) :=
  let b := extendTo board ty
  b.set ty (b.getD ty [] ++ [{ position := { x := x, y := y }, color := color, purgatory := false }])

/-- Sorted-set insertion, modelling `BTreeSet<usize>::insert`. -/
def insertSorted (n : Nat) : List Nat → List Nat
  | [] => [n]
  | m :: rest =>
    if n < m then n :: m :: rest
    else if n = m then m :: rest
    else m :: insertSorted n rest

/-- One iteration of the merge loop of the lock branch of `Inner::update`:
the occupied cell `top_left + sq` is pushed onto bucket `(NUM_ROWS - y).toNat`
and that bucket index is recorded in the touched set. -/
def mergeStep (NR : Int) (p : Piece) (acc : List (List Square) × List Nat)
    (sq : Vector2D) : List (List Square) × List Nat :=
  let x := p.top_left.x + sq.x
  let y := p.top_left.y + sq.y
  let ty := (NR - y).toNat
  (addSquare p.color x y ty acc.1, insertSorted ty acc.2)

/-- The merge loop of the lock branch of `Inner::update`: every occupied
cell of the piece is pushed onto bucket `(NUM_ROWS - y).toNat`, and the set
of touched buckets is collected. -/
def mergePiece (NR : Int) (p : Piece) (board : List (List Square)) :
    List (List Square) × List Nat :=
  p.squares.foldl (mergeStep NR p) (board, [])

/-- Set the purgatory flag on every cell of a row. -/
def markRow (row : List Square) : List Square :=
  row.map fun c => { c with purgatory := true }

/-- The purgatory-flagging loop of the lock branch: for each touched bucket
(iterated in reverse sorted order), if it holds exactly `NUM_COLS` cells,
flag every cell and record that a redraw (wait period) is needed.  The
redraw flag is set inside the per-cell loop in the source, hence the
`!row.isEmpty` conjunct. -/
def markLoop (NC : Int) : List Nat → List (List Square) → Bool → List (List Square) × Bool
  | [], b, rd => (b, rd)
  | i :: rest, b, rd =>
    let row := b.getD i []
    if row.length = NC.toNat then markLoop NC rest (b.set i (markRow row)) (rd || !row.isEmpty)
    else markLoop NC rest b rd

/-- The lock branch of `Inner::update` (taken when the lock-delay counter
exceeds `FRAMES_BEFORE_WE_SEAL_MOVE`): merge, flag full rows, drop the
current piece, and set the purgatory wait timer when a row filled up. -/
def lockPhase (NC NR : Int) (cp : Piece) (s : Inner) : Inner :=
  let m := mergePiece NR cp s.board_pieces
  let mk := markLoop NC m.2.reverse m.1 false
  { s with board_pieces := mk.1, current_piece := none,
           frames_to_wait := if mk.2 then FRAMES_TO_SHOW_PURGATORY else s.frames_to_wait }

/-- The spawn branch of `Inner::update` (current piece is none): draw a
random piece, zero the lock-delay counter, then run the row-clearing scan. -/
def spawnPhase (NC : Int) (s : Inner) : Inner :=
  { s with current_piece := some (get_random_piece NC (s.rand s.rand_idx)),
           rand_idx := s.rand_idx + 1,
           frames_since_last_successful_move := 0,
           board_pieces := clearFullRows NC s.board_pieces }

/-- The vertical-move loop: up to `fuel` (`y_to_move`) single steps down,
stopping (and reverting the last step) at the first collision.  The Bool
result is the `did_move` contribution, which is suppressed while
`did_send_to_bottom` holds. -/
def moveDownLoop (NC NR : Int) (board : List (List Square)) :
    Nat → Piece → Bool → Piece × Bool
  | 0, p, _ => (p, false)
  | fuel + 1, p, did_send =>
    let p1 := moveDown1 p
    if does_collide NC NR p1 board then (p, false)
    else
      let r := moveDownLoop NC NR board fuel p1 did_send
      (r.1, r.2 || !did_send)

/-- One horizontal step of the anchor. -/
def shiftX (p : Piece) (dx : Int) : Piece :=
  { p with top_left := { p.top_left with x := p.top_left.x + dx } }

/-- The horizontal-move loop: while the accumulator is nonzero, consume one
unit, step, and on collision revert the step and break (note the source
breaks with the rest of the accumulator unconsumed).  Returns the piece, the
remaining accumulator, and the `did_move` contribution.  `fuel = |x_to_move|`
bounds the loop, which consumes one unit of `|xtm|` per iteration. -/
def moveXLoop (NC NR : Int) (board : List (List Square)) (dx : Int) :
    Nat → Piece → Int → Piece × Int × Bool
  | 0, p, xtm => (p, xtm, false)
  | fuel + 1, p, xtm =>
    if xtm = 0 then (p, xtm, false)
    else
      let xtm1 := xtm - dx
      let p1 := shiftX p dx
      if does_collide NC NR p1 board then (p, xtm1, false)
      else
        let r := moveXLoop NC NR board dx fuel p1 xtm1
        (r.1, r.2.1, true)

/-- The rotation loop: while the accumulator is nonzero, consume one unit,
rotate (direction by the sign captured before the loop), and on collision
restore the offset snapshot — with no break, so the loop always drains the
accumulator. -/
def rotLoop (NC NR : Int) (board : List (List Square)) (dr : Int) :
    Nat → Piece → Int → Piece × Int × Bool
  | 0, p, r => (p, r, false)
  | fuel + 1, p, r =>
    if r = 0 then (p, r, false)
    else
      let r1 := r - dr
      let p1 := if dr > 0 then rotate_clockwise p else rotate_counter_clockwise p
      if does_collide NC NR p1 board then
        let q := rotLoop NC NR board dr fuel p r1
        (q.1, q.2.1, q.2.2)
      else
        let q := rotLoop NC NR board dr fuel p1 r1
        (q.1, q.2.1, true)

/-- The movement block at the bottom of `Inner::update` (runs whenever a
current piece exists after the spawn/lock `match`): vertical move (one step,
or `NUM_ROWS` steps on a hard drop, which also presets the lock-delay
counter to the threshold), horizontal moves, rotations, then the lock-delay
counter update from `did_move`. -/
def movePhase (NC NR : Int) (s : Inner) : Inner :=
  match s.current_piece with
  | none => s
  | some cp =>
    let t :=
      if s.should_send_to_bottom then
        (NR.toNat, true, { s with should_send_to_bottom := false,
                                  frames_since_last_successful_move := FRAMES_BEFORE_WE_SEAL_MOVE })
      else ((1 : Nat), false, s)
    let fuel := t.1
    let did_send := t.2.1
    let s1 := t.2.2
    let v := moveDownLoop NC NR s1.board_pieces fuel cp did_send
    let dx : Int := if s1.x_to_move > 0 then 1 else -1
    let h := moveXLoop NC NR s1.board_pieces dx s1.x_to_move.natAbs v.1 s1.x_to_move
    let dr : Int := if s1.rotations_to_perform > 0 then 1 else -1
    let q := rotLoop NC NR s1.board_pieces dr s1.rotations_to_perform.natAbs h.1 s1.rotations_to_perform
    let did_move := v.2 || h.2.2 || q.2.2
    { s1 with current_piece := some q.1, x_to_move := h.2.1, rotations_to_perform := q.2.1,
              frames_since_last_successful_move :=
                if did_move then 0 else s1.frames_since_last_successful_move + 1 }

/-- `Inner::update`: wait-timer early return, swap, spawn-and-clear or
lock-and-flag (the lock branch returns early, skipping movement), then the
movement block. -/
def Inner.update (NC NR : Int) (s : Inner) : Inner :=
  if 0 < s.frames_to_wait then { s with frames_to_wait := s.frames_to_wait - 1 }
  else
    let s1 := applySwap s
    match s1.current_piece with
    | none => movePhase NC NR (spawnPhase NC s1)
    | some cp =>
      if FRAMES_BEFORE_WE_SEAL_MOVE < s1.frames_since_last_successful_move then
        lockPhase NC NR cp s1
      else movePhase NC NR s1

/-- `Inner::tick`: pre-process keys; when not effectively paused, on a frame
whose countdown reached 0 dispatch one key and run `update`, reload the
countdown, and in either case decrement it.  `draw` mutates no simulation
state and is omitted. -/
def Inner.tick (NC NR : Int) (s : Inner) : Inner :=
  let s1 := s.pre_process_keys
  if !s1.effectively_paused then
    let s2 :=
      if s1.frames_until_update = 0 then
        let s3 := Inner.update NC NR s1.process_key
        { s3 with frames_until_update := s3.frames_between_updates }
      else s1
    { s2 with frames_until_update := s2.frames_until_update - 1 }
  else s1

/-- States reachable from a fresh `Inner` by `tick` and `handle_key` (over
every possible random stream). -/
inductive Reachable (NC NR : Int) : Inner → Prop
  | new : ∀ rand, Reachable NC NR (Inner.new rand)
  | tick : ∀ s, Reachable NC NR s → Reachable NC NR (Inner.tick NC NR s)
  | key : ∀ s k, Reachable NC NR s → Reachable NC NR (Inner.handle_key s k)

end RustyTetris

namespace RustyTetris

/-- The collision predicate exactly as claim C1 words it: some occupied cell
lies outside the rectangle `[0, NC) × [0, NR)` or coincides with a locked
board cell. -/
def collides_claim1 (NC NR : Int) (p : Piece) (board : List (List Square)) : Prop :=
  ∃ sq ∈ p.squares,
    (¬ (0 ≤ p.top_left.x + sq.x ∧ p.top_left.x + sq.x < NC ∧
        0 ≤ p.top_left.y + sq.y ∧ p.top_left.y + sq.y < NR)) ∨
    ∃ row ∈ board, ∃ c ∈ row,
      p.top_left.x + sq.x = c.position.x ∧ p.top_left.y + sq.y = c.position.y

instance (NC NR : Int) (p : Piece) (board : List (List Square)) :
    Decidable (collides_claim1 NC NR p board) := by
  unfold collides_claim1; infer_instance

/-- A one-cell piece hovering above the board: inside the columns, row -1. -/
def pieceAboveBoard : Piece :=
  { top_left := { x := 0, y := -1 }, size := 1, squares := [⟨0, 0⟩], color := COLOR_LINE }

/-- Claim C1 fails as stated: a cell at row −1 lies outside the rectangle
`[0, NUM_COLS) × [0, NUM_ROWS)`, yet `does_collide` returns false — the code
never tests `y < 0`. -/
theorem claim1_counterexample :
    ¬ (does_collide 10 20 pieceAboveBoard [] = true ↔ collides_claim1 10 20 pieceAboveBoard []) := by
  decide

theorem does_collide_eq_true_iff (NC NR : Int) (p : Piece) (board : List (List Square)) :
    does_collide NC NR p board = true ↔
      ∃ sq ∈ p.squares,
        (p.top_left.x + sq.x < 0 ∨ NC ≤ p.top_left.x + sq.x ∨ NR ≤ p.top_left.y + sq.y) ∨
        ∃ row ∈ board, ∃ c ∈ row,
          p.top_left.x + sq.x = c.position.x ∧ p.top_left.y + sq.y = c.position.y := by
  simp only [does_collide, List.any_eq_true, Bool.or_eq_true, Bool.and_eq_true,
    decide_eq_true_eq, List.any_eq_true]
  constructor
  · rintro ⟨sq, hsq, h⟩
    refine ⟨sq, hsq, ?_⟩
    rcases h with ((hx | hx) | hy) | ⟨row, hrow, c, hc, hcx, hcy⟩
    · exact Or.inl (Or.inl hx)
    · exact Or.inl (Or.inr (Or.inl hx))
    · exact Or.inl (Or.inr (Or.inr hy))
    · exact Or.inr ⟨row, hrow, c, hc, hcx, hcy⟩
  · rintro ⟨sq, hsq, h⟩
    refine ⟨sq, hsq, ?_⟩
    rcases h with (hx | hx | hy) | ⟨row, hrow, c, hc, hcx, hcy⟩
    · exact Or.inl (Or.inl (Or.inl hx))
    · exact Or.inl (Or.inl (Or.inr hx))
    · exact Or.inl (Or.inr hy)
    · exact Or.inr ⟨row, hrow, c, hc, hcx, hcy⟩

/-- Claim C1 (amended): `does_collide` is true iff some occupied cell has
its column outside `[0, NUM_COLS)`, or its row at or below `NUM_ROWS`, or
coincides with a locked board cell — rows above the board (`row < 0`) are
not collisions. -/
theorem claim1_collide_characterization (NC NR : Int) (p : Piece) (board : List (List Square)) :
    does_collide NC NR p board = true ↔
      ∃ sq ∈ p.squares,
        (p.top_left.x + sq.x < 0 ∨ NC ≤ p.top_left.x + sq.x ∨ NR ≤ p.top_left.y + sq.y) ∨
        ∃ row ∈ board, ∃ c ∈ row,
          p.top_left.x + sq.x = c.position.x ∧ p.top_left.y + sq.y = c.position.y :=
  does_collide_eq_true_iff NC NR p board

/-- Claim C5: four clockwise rotations restore a piece's offset list
exactly, and counter-clockwise rotation is the two-sided inverse of
clockwise rotation. -/
theorem claim5_rotations (p : Piece) :
    rotate_clockwise (rotate_clockwise (rotate_clockwise (rotate_clockwise p))) = p ∧
    rotate_counter_clockwise (rotate_clockwise p) = p ∧
    rotate_clockwise (rotate_counter_clockwise p) = p := by
  obtain ⟨tl, size, squares, color⟩ := p
  refine ⟨?_, ?_, ?_⟩ <;>
    simp only [rotate_clockwise, rotate_counter_clockwise, List.map_map, Piece.mk.injEq,
      true_and, and_true] <;>
    (conv_rhs => rw [← List.map_id squares]) <;>
    refine List.map_congr_left (fun v _ => ?_) <;>
    cases v <;>
    simp [Function.comp, Vector2D.mk.injEq]

theorem applySwap_key_buff (s : Inner) : (applySwap s).key_buff = s.key_buff := by
  unfold applySwap
  split
  · split <;> rfl
  · rfl

theorem spawnPhase_key_buff (NC : Int) (s : Inner) :
    (spawnPhase NC s).key_buff = s.key_buff := rfl

theorem lockPhase_key_buff (NC NR : Int) (cp : Piece) (s : Inner) :
    (lockPhase NC NR cp s).key_buff = s.key_buff := rfl

theorem movePhase_key_buff (NC NR : Int) (s : Inner) :
    (movePhase NC NR s).key_buff = s.key_buff := by
  unfold movePhase
  split
  · rfl
  · split <;> rfl

theorem update_key_buff (NC NR : Int) (s : Inner) :
    (Inner.update NC NR s).key_buff = s.key_buff := by
  unfold Inner.update
  have hswap := applySwap_key_buff s
  split
  · rfl
  · dsimp only
    split
    · rw [movePhase_key_buff, spawnPhase_key_buff, hswap]
    · split
      · rw [lockPhase_key_buff, hswap]
      · rw [movePhase_key_buff, hswap]

theorem pre_process_keys_len (s : Inner) :
    (Inner.pre_process_keys s).key_buff.length ≤ s.key_buff.length := by
  unfold Inner.pre_process_keys
  rcases hb : s.key_buff with _ | ⟨k, rest⟩
  · dsimp only
    split <;> simp [hb]
  · dsimp only
    split_ifs <;> simp_all [Inner.reset]

theorem process_key_len (s : Inner) :
    (Inner.process_key s).key_buff.length ≤ s.key_buff.length := by
  unfold Inner.process_key
  rcases hb : s.key_buff with _ | ⟨k, rest⟩
  · simp [hb]
  · dsimp only
    split_ifs <;> simp

theorem tick_key_buff_len (NC NR : Int) (s : Inner) :
    (Inner.tick NC NR s).key_buff.length ≤ s.key_buff.length := by
  unfold Inner.tick
  dsimp only
  split
  · have h1 := pre_process_keys_len s
    split
    · rw [update_key_buff]
      exact le_trans (process_key_len _) h1
    · exact h1
  · exact pre_process_keys_len s

/-- Claim C10: in every reachable state the key buffer holds at most
`MAX_KEY_BUFF_LEN = 3` entries, and `handle_key` on a full buffer leaves the
state unchanged. -/
theorem claim10_key_buffer_bound :
    (∀ (NC NR : Int) (s : Inner), Reachable NC NR s → s.key_buff.length ≤ MAX_KEY_BUFF_LEN) ∧
    (∀ (s : Inner) (k : String), s.key_buff.length = MAX_KEY_BUFF_LEN →
      Inner.handle_key s k = s) := by
  constructor
  · intro NC NR s h
    induction h with
    | new rand => simp [Inner.new, MAX_KEY_BUFF_LEN]
    | tick s _ ih => exact le_trans (tick_key_buff_len NC NR s) ih
    | key s k _ ih =>
      unfold Inner.handle_key
      split
      · next hlt => simpa using hlt
      · exact ih
  · intro s k hlen
    unfold Inner.handle_key
    rw [hlen]
    simp

def fullBuffState : Inner :=
  { Inner.new (fun _ => 0) with key_buff := ["a", "b", "c"] }

theorem claim10_witness :
    ((Inner.new fun _ => 0).key_buff.length ≤ MAX_KEY_BUFF_LEN) ∧
    Inner.handle_key fullBuffState "d" = fullBuffState :=
  ⟨claim10_key_buffer_bound.1 10 20 _ (Reachable.new _),
   claim10_key_buffer_bound.2 fullBuffState "d" (by decide)⟩

/-- What claim C7's non-game-over branch asserts about the state `t` after
pre-processing relative to the state `s` before. -/
def enterNotOverSpec (s t : Inner) : Prop :=
  t.is_paused = (!s.is_paused) ∧ t.is_game_over = s.is_game_over ∧
  t.board_pieces = s.board_pieces ∧ t.current_piece = s.current_piece ∧
  t.swapped_piece = s.swapped_piece ∧ t.score = s.score

/-- What the reset performed by the game-over branch of `"Enter"` handling
actually restores: score, board, current piece, the game-over and win flags
and the frame counters are set back to their initial values, while the
paused flag (and the focus flag and held piece) are left as they were. -/
def enterResetSpec (s t : Inner) : Prop :=
  t.score = 0 ∧ t.board_pieces = [] ∧ t.current_piece = none ∧
  t.is_game_over = false ∧ t.did_win = false ∧ t.frames_to_wait = 0 ∧
  t.frames_between_updates = MIN_SPEED ∧ t.frames_until_update = MIN_SPEED ∧
  t.is_paused = s.is_paused ∧ t.should_show_focus_banner = s.should_show_focus_banner ∧
  t.swapped_piece = s.swapped_piece

/-- A game-over-and-paused state with `"Enter"` at the head of the buffer. -/
def enterGameOverPausedState : Inner :=
  { Inner.new (fun _ => 0) with is_game_over := true, is_paused := true,
                                key_buff := ["Enter"], score := 7 }

/-- Claim C7 fails as stated: on a game-over state whose paused flag is set,
the `"Enter"` reset leaves the paused flag `true`, so not all flags are
restored to their initial values (a fresh state has `is_paused = false`). -/
theorem claim7_counterexample :
    (Inner.pre_process_keys enterGameOverPausedState).is_paused = true ∧
    (Inner.new fun _ => 0).is_paused = false := by
  constructor
  · rfl
  · rfl

/-- Claim C7 (amended): with `"Enter"` at the head of the buffer at the
start of a tick, the token is dequeued (the buffer becomes its tail, or is
emptied outright by the effectively-paused clearing); if the game is not
game-over the paused flag is flipped and board, pieces and score are
untouched; if the game is game-over, the reset restores score, board,
current piece, the game-over and win flags and the frame counters to their
initial values — but not the paused flag, the focus flag or the held
piece. -/
theorem claim7_enter_amended (s : Inner) (rest : List String)
    (hb : s.key_buff = "Enter" :: rest) :
    (s.is_game_over = false → enterNotOverSpec s s.pre_process_keys) ∧
    (s.is_game_over = true → enterResetSpec s s.pre_process_keys) ∧
    (s.pre_process_keys.key_buff = [] ∨ s.pre_process_keys.key_buff = rest) := by
  unfold Inner.pre_process_keys
  rw [hb]
  dsimp only
  refine ⟨fun hgo => ?_, fun hgo => ?_, ?_⟩
  · rw [hgo]
    split_ifs <;> simp_all [enterNotOverSpec, Inner.reset]
  · rw [hgo]
    split_ifs <;> simp_all [enterResetSpec, Inner.reset]
  · split_ifs <;> simp_all [Inner.reset]

def enterPlainState : Inner :=
  { Inner.new (fun _ => 0) with key_buff := ["Enter"], score := 3 }

theorem claim7_witness :
    enterPlainState.key_buff = "Enter" :: [] ∧
    ((enterPlainState.is_game_over = false →
        enterNotOverSpec enterPlainState enterPlainState.pre_process_keys) ∧
     (enterPlainState.is_game_over = true →
        enterResetSpec enterPlainState enterPlainState.pre_process_keys) ∧
     (enterPlainState.pre_process_keys.key_buff = [] ∨
        enterPlainState.pre_process_keys.key_buff = [])) :=
  ⟨rfl, claim7_enter_amended enterPlainState [] rfl⟩

/-- A paused state with a nonempty board and `"r"` at the head of the
buffer: the tick is effectively paused after pre-processing, yet the
pre-processing pass itself resets the game and empties the board. -/
def oneCellBoard : List (List Square) :=
  [[{ position := ⟨0, 5⟩, color := COLOR_LINE, purgatory := false }]]

def pausedResetState : Inner :=
  { Inner.new (fun _ => 0) with
      is_paused := true, key_buff := ["r"], board_pieces := oneCellBoard }

/-- Claim C9 fails as stated: a tick can end effectively paused and still
change the board, because an `"r"` head token triggers a reset during
pre-processing regardless of the pause state. -/
theorem claim9_counterexample :
    (Inner.pre_process_keys pausedResetState).effectively_paused = true ∧
    (Inner.tick 10 20 pausedResetState).board_pieces ≠ pausedResetState.board_pieces := by
  constructor
  · rfl
  · decide

/-- Claim C9 (amended): on a tick that is effectively paused after the
pre-processing pass, provided pre-processing itself performs no reset (the
head token is not `"r"`, and is `"Enter"` only while not game-over), the key
buffer ends empty, no token is dispatched to an action (all four action
accumulators are untouched), and board, pieces, score and every timing
counter are unchanged by the tick. -/
theorem claim9_paused_tick (NC NR : Int) (s : Inner)
    (hp : (Inner.pre_process_keys s).effectively_paused = true)
    (hr : ∀ rest, s.key_buff ≠ "r" :: rest)
    (he : ∀ rest, s.key_buff = "Enter" :: rest → s.is_game_over = false) :
    (Inner.tick NC NR s).key_buff = [] ∧
    (Inner.tick NC NR s).board_pieces = s.board_pieces ∧
    (Inner.tick NC NR s).current_piece = s.current_piece ∧
    (Inner.tick NC NR s).swapped_piece = s.swapped_piece ∧
    (Inner.tick NC NR s).score = s.score ∧
    (Inner.tick NC NR s).frames_between_updates = s.frames_between_updates ∧
    (Inner.tick NC NR s).frames_until_update = s.frames_until_update ∧
    (Inner.tick NC NR s).frames_since_last_successful_move = s.frames_since_last_successful_move ∧
    (Inner.tick NC NR s).frames_to_wait = s.frames_to_wait ∧
    (Inner.tick NC NR s).x_to_move = s.x_to_move ∧
    (Inner.tick NC NR s).rotations_to_perform = s.rotations_to_perform ∧
    (Inner.tick NC NR s).should_send_to_bottom = s.should_send_to_bottom ∧
    (Inner.tick NC NR s).should_swap_piece = s.should_swap_piece := by
  have htick : Inner.tick NC NR s = Inner.pre_process_keys s := by
    unfold Inner.tick
    dsimp only
    rw [hp]
    rfl
  rw [htick]
  unfold Inner.pre_process_keys at hp ⊢
  rcases hb : s.key_buff with _ | ⟨k, rest⟩
  · rw [hb] at hp
    dsimp only at hp ⊢
    split_ifs with h <;> simp_all
  · have hkr : ¬ (k = "r") := fun h => hr rest (by rw [hb, h])
    rw [hb] at hp
    dsimp only at hp ⊢
    split_ifs at hp ⊢ with h1 h2 h3 <;> simp_all [Inner.reset]

def pausedIdleState : Inner :=
  { Inner.new (fun _ => 0) with
      is_paused := true, key_buff := ["x"], board_pieces := oneCellBoard,
      score := 4, frames_until_update := 2 }

theorem claim9_witness :
    (Inner.pre_process_keys pausedIdleState).effectively_paused = true ∧
    ((Inner.tick 7 9 pausedIdleState).key_buff = [] ∧
     (Inner.tick 7 9 pausedIdleState).board_pieces = pausedIdleState.board_pieces ∧
     (Inner.tick 7 9 pausedIdleState).current_piece = pausedIdleState.current_piece ∧
     (Inner.tick 7 9 pausedIdleState).swapped_piece = pausedIdleState.swapped_piece ∧
     (Inner.tick 7 9 pausedIdleState).score = pausedIdleState.score ∧
     (Inner.tick 7 9 pausedIdleState).frames_between_updates =
       pausedIdleState.frames_between_updates ∧
     (Inner.tick 7 9 pausedIdleState).frames_until_update =
       pausedIdleState.frames_until_update ∧
     (Inner.tick 7 9 pausedIdleState).frames_since_last_successful_move =
       pausedIdleState.frames_since_last_successful_move ∧
     (Inner.tick 7 9 pausedIdleState).frames_to_wait = pausedIdleState.frames_to_wait ∧
     (Inner.tick 7 9 pausedIdleState).x_to_move = pausedIdleState.x_to_move ∧
     (Inner.tick 7 9 pausedIdleState).rotations_to_perform =
       pausedIdleState.rotations_to_perform ∧
     (Inner.tick 7 9 pausedIdleState).should_send_to_bottom =
       pausedIdleState.should_send_to_bottom ∧
     (Inner.tick 7 9 pausedIdleState).should_swap_piece =
       pausedIdleState.should_swap_piece) :=
  ⟨rfl, claim9_paused_tick 7 9 pausedIdleState rfl
    (fun rest h => by simp [pausedIdleState, Inner.new] at h) (fun _ _ => rfl)⟩

/-- The piece brought into play by a swap: anchor row reset to 0, column,
size, offsets and color unchanged. -/
def reenter (p : Piece) : Piece :=
  { top_left := { x := p.top_left.x, y := 0 }, size := p.size,
    squares := p.squares, color := p.color }

theorem applySwap_swapped (s : Inner) (h : s.should_swap_piece = true) :
    (applySwap s).swapped_piece = s.current_piece := by
  unfold applySwap
  rw [h, if_pos rfl]
  split <;> rfl

theorem movePhase_swapped (NC NR : Int) (s : Inner) :
    (movePhase NC NR s).swapped_piece = s.swapped_piece := by
  unfold movePhase
  split
  · rfl
  · cases hsend : s.should_send_to_bottom <;> simp only [hsend] <;> rfl

theorem lockPhase_swapped (NC NR : Int) (cp : Piece) (s : Inner) :
    (lockPhase NC NR cp s).swapped_piece = s.swapped_piece := rfl

theorem spawnPhase_swapped (NC : Int) (s : Inner) :
    (spawnPhase NC s).swapped_piece = s.swapped_piece := rfl

/-- Claim C8: a performed swap exchanges the current piece with the held
piece (the update leaves the old current piece in the hold slot), the piece
entering play is the old held piece with its anchor row reset to 0 and its
column, offsets and color unchanged, the request flag is consumed, and a
second swap (from any state whose hold slot carries what the first swap put
there) brings the original piece back into play with row 0. -/
theorem claim8_swap (NC NR : Int) (s : Inner)
    (hw : s.frames_to_wait = 0) (hs : s.should_swap_piece = true) :
    (Inner.update NC NR s).swapped_piece = s.current_piece ∧
    (applySwap s).should_swap_piece = false ∧
    (∀ p : Piece, s.swapped_piece = some p → (applySwap s).current_piece = some (reenter p)) ∧
    (∀ p : Piece, s.current_piece = some p → ∀ t : Inner,
      t.swapped_piece = (applySwap s).swapped_piece → t.should_swap_piece = true →
      (applySwap t).current_piece = some (reenter p)) := by
  refine ⟨?_, ?_, ?_, ?_⟩
  · unfold Inner.update
    rw [hw]
    have h1 := applySwap_swapped s hs
    split
    · next hlt => exact absurd hlt (by omega)
    · dsimp only
      split
      · rw [movePhase_swapped, spawnPhase_swapped, h1]
      · split
        · rw [lockPhase_swapped, h1]
        · rw [movePhase_swapped, h1]
  · unfold applySwap
    rw [hs, if_pos rfl]
    split <;> rfl
  · intro p hp
    unfold applySwap
    rw [hs, if_pos rfl, hp]
    rfl
  · intro p hp t ht hts
    rw [applySwap_swapped s hs, hp] at ht
    unfold applySwap
    rw [hts, if_pos rfl, ht]
    rfl

def swapStateA : Inner :=
  { Inner.new (fun _ => 0) with
      should_swap_piece := true,
      current_piece := some (get_random_piece 10 0),
      swapped_piece := some (get_random_piece 10 4) }

theorem claim8_witness :
    swapStateA.frames_to_wait = 0 ∧ swapStateA.should_swap_piece = true ∧
    ((Inner.update 10 20 swapStateA).swapped_piece = swapStateA.current_piece ∧
     (applySwap swapStateA).should_swap_piece = false ∧
     (∀ p : Piece, swapStateA.swapped_piece = some p →
        (applySwap swapStateA).current_piece = some (reenter p)) ∧
     (∀ p : Piece, swapStateA.current_piece = some p → ∀ t : Inner,
        t.swapped_piece = (applySwap swapStateA).swapped_piece → t.should_swap_piece = true →
        (applySwap t).current_piece = some (reenter p))) :=
  ⟨rfl, rfl, claim8_swap 10 20 swapStateA rfl rfl⟩

/-- The row-clear result as claim C3 words it: every row holding exactly
`NUM_COLS` cells is deleted, and each surviving row has its cells' row
coordinate incremented by one for every deleted row below it (`k` counts the
full rows already passed below the current one); rows with no deleted row
below them are unchanged. -/
def clearedSpec (NC : Int) (k : Nat) : List (List Square) → List (List Square)
  | [] => []
  | row :: rest =>
    if row.length = NC.toNat then clearedSpec NC (k + 1) rest
    else
      (row.map fun c => { c with position := { c.position with y := c.position.y + (k : Int) } }) ::
        clearedSpec NC k rest

theorem clearedSpec_map_shift (NC : Int) (k : Nat) (b : List (List Square)) :
    (clearedSpec NC k b).map shiftRowDown = clearedSpec NC (k + 1) b := by
  induction b generalizing k with
  | nil => rfl
  | cons row rest ih =>
    unfold clearedSpec
    split
    · exact ih (k + 1)
    · simp only [List.map_cons, ih k, shiftRowDown, List.map_map]
      congr 1
      refine List.map_congr_left fun c _ => ?_
      cases c with
      | mk pos color purg =>
        cases pos
        simp [Function.comp]
        ring

theorem clearFullRows_eq_spec (NC : Int) (b : List (List Square)) :
    clearFullRows NC b = clearedSpec NC 0 b := by
  induction b with
  | nil => rfl
  | cons row rest ih =>
    unfold clearFullRows clearedSpec
    split
    · rw [ih, clearedSpec_map_shift]
    · rw [ih]
      dsimp only
      congr 1
      conv_lhs => rw [← List.map_id row]
      refine List.map_congr_left fun c _ => ?_
      cases c with
      | mk pos color purg => cases pos; simp

theorem clearedSpec_not_full (NC : Int) (k : Nat) (b : List (List Square)) :
    ∀ r ∈ clearedSpec NC k b, r.length ≠ NC.toNat := by
  induction b generalizing k with
  | nil => intro r hr; cases hr
  | cons row rest ih =>
    intro r hr
    unfold clearedSpec at hr
    split at hr
    · exact ih (k + 1) r hr
    · next hfull =>
      rcases List.mem_cons.mp hr with hr1 | hr1
      · subst hr1; simpa using hfull
      · exact ih k r hr1

theorem movePhase_board (NC NR : Int) (s : Inner) :
    (movePhase NC NR s).board_pieces = s.board_pieces := by
  unfold movePhase
  split
  · rfl
  · cases hsend : s.should_send_to_bottom <;> simp only [hsend] <;> rfl

theorem applySwap_of_not_requested (s : Inner) (h : s.should_swap_piece = false) :
    applySwap s = s := by
  unfold applySwap
  rw [h]
  rfl

/-- Claim C3 (amended): on an update where the current piece is none, the
wait timer has elapsed and additionally no swap is pending, the board
becomes exactly the claim's cleared board (`clearedSpec`): every row holding
exactly `NUM_COLS` cells is deleted, each surviving row is shifted down once
per deleted row below it (rows with no deleted row below are unchanged), and
no full-width row — in particular none of the rows that were full at lock
time — remains afterwards. -/
theorem claim3_line_clear (NC NR : Int) (s : Inner)
    (hw : s.frames_to_wait = 0) (hsw : s.should_swap_piece = false)
    (hcp : s.current_piece = none) :
    (Inner.update NC NR s).board_pieces = clearedSpec NC 0 s.board_pieces ∧
    ∀ r ∈ (Inner.update NC NR s).board_pieces, r.length ≠ NC.toNat := by
  have hb : (Inner.update NC NR s).board_pieces = clearedSpec NC 0 s.board_pieces := by
    unfold Inner.update
    rw [hw]
    split
    · next hlt => exact absurd hlt (by omega)
    · dsimp only
      rw [applySwap_of_not_requested s hsw]
      split
      · rw [movePhase_board]
        unfold spawnPhase
        dsimp only
        exact clearFullRows_eq_spec NC s.board_pieces
      · next cp heq => rw [hcp] at heq; cases heq
  exact ⟨hb, hb ▸ clearedSpec_not_full NC 0 s.board_pieces⟩

def fullRowBoard : List (List Square) :=
  [[{ position := ⟨0, 5⟩, color := COLOR_LINE, purgatory := true },
    { position := ⟨1, 5⟩, color := COLOR_SQUARE, purgatory := true }],
   [{ position := ⟨0, 4⟩, color := COLOR_PYRAMID, purgatory := false }]]

def spawnClearState : Inner :=
  { Inner.new (fun _ => 0) with board_pieces := fullRowBoard }

def swapPendingClearState : Inner :=
  { Inner.new (fun _ => 0) with
      board_pieces := fullRowBoard,
      should_swap_piece := true,
      swapped_piece := some (get_random_piece 2 4) }

/-- Claim C3 fails as stated: with the current piece none and the wait timer
elapsed but a swap pending with a held piece, the held piece enters play
instead of a spawn, the row scan is skipped, and a full-width row survives
the update. -/
theorem claim3_counterexample :
    swapPendingClearState.current_piece = none ∧
    swapPendingClearState.frames_to_wait = 0 ∧
    ∃ r ∈ (Inner.update 2 6 swapPendingClearState).board_pieces, r.length = (2 : Int).toNat := by
  refine ⟨rfl, rfl, by decide⟩

theorem claim3_witness :
    spawnClearState.frames_to_wait = 0 ∧ spawnClearState.should_swap_piece = false ∧
    spawnClearState.current_piece = none ∧
    ((Inner.update 2 6 spawnClearState).board_pieces = clearedSpec 2 0 spawnClearState.board_pieces ∧
     ∀ r ∈ (Inner.update 2 6 spawnClearState).board_pieces, r.length ≠ (2 : Int).toNat) :=
  ⟨rfl, rfl, rfl, claim3_line_clear 2 6 spawnClearState rfl rfl rfl⟩

/-- The piece moved down by `k` rows. -/
def movedDownBy (p : Piece) (k : Int) : Piece :=
  { p with top_left := { p.top_left with y := p.top_left.y + k } }

theorem movedDownBy_zero (p : Piece) : movedDownBy p 0 = p := by
  cases p with
  | mk tl size squares color => cases tl; simp [movedDownBy]

theorem movedDownBy_succ (p : Piece) (j : Int) :
    movedDownBy (moveDown1 p) j = movedDownBy p (j + 1) := by
  cases p with
  | mk tl size squares color =>
    cases tl
    simp [movedDownBy, moveDown1]
    ring

theorem get_interception_point_nonneg (NC NR : Int) (board : List (List Square))
    (fuel : Nat) (p : Piece) (k : Int)
    (h : get_interception_point NC NR fuel p board = some k) : 0 ≤ k := by
  induction fuel generalizing p k with
  | zero => simp [get_interception_point] at h
  | succ fuel ih =>
    unfold get_interception_point at h
    dsimp only at h
    split at h
    · cases h; omega
    · obtain ⟨j, hj, hk⟩ := Option.map_eq_some'.mp h
      have := ih (moveDown1 p) j hj
      omega

theorem moveDownLoop_eq_of_gip (NC NR : Int) (board : List (List Square))
    (fuel : Nat) (p : Piece) (ds : Bool) (k : Int)
    (h : get_interception_point NC NR fuel p board = some k) :
    moveDownLoop NC NR board fuel p ds = (movedDownBy p k, decide (k ≠ 0) && !ds) := by
  induction fuel generalizing p k with
  | zero => simp [get_interception_point] at h
  | succ fuel ih =>
    unfold get_interception_point at h
    dsimp only at h
    unfold moveDownLoop
    split at h
    · next hc =>
      cases h
      rw [if_pos hc, movedDownBy_zero]
      simp
    · next hc =>
      obtain ⟨j, hj, hk⟩ := Option.map_eq_some'.mp h
      have hj0 := get_interception_point_nonneg NC NR board fuel (moveDown1 p) j hj
      rw [if_neg hc]
      dsimp only
      rw [ih (moveDown1 p) j hj, movedDownBy_succ, ← hk]
      dsimp only
      have hb : ((decide (j ≠ 0) && !ds) || !ds) = (decide (j + 1 ≠ 0) && !ds) := by
        have h1 : decide (j + 1 ≠ 0) = true := by simp; omega
        rw [h1]
        cases ds <;> cases decide (j ≠ 0) <;> rfl
      rw [hb]

theorem gip_none_no_collide (NC NR : Int) (board : List (List Square))
    (fuel : Nat) (p : Piece)
    (h : get_interception_point NC NR fuel p board = none) :
    ∀ j : Nat, 1 ≤ j → j ≤ fuel →
      does_collide NC NR (movedDownBy p (j : Int)) board = false := by
  induction fuel generalizing p with
  | zero => intro j h1 h2; omega
  | succ fuel ih =>
    unfold get_interception_point at h
    dsimp only at h
    split at h
    · cases h
    · next hc =>
      have hrec : get_interception_point NC NR fuel (moveDown1 p) board = none :=
        Option.map_eq_none'.mp h
      intro j h1 h2
      simp only [Bool.not_eq_true] at hc
      match j, h1 with
      | 1, _ =>
        have hmd : does_collide NC NR (moveDown1 p) board = false := hc
        exact hmd
      | (j' + 1 + 1), _ =>
        have hstep := movedDownBy_succ p ((j' + 1 : Nat) : Int)
        have hcast : ((j' + 1 + 1 : Nat) : Int) = ((j' + 1 : Nat) : Int) + 1 := by
          push_cast
          ring
        rw [hcast, ← hstep]
        exact ih (moveDown1 p) hrec (j' + 1) (by omega) (by omega)

theorem gip_some_of_cell (NC NR : Int) (board : List (List Square)) (p : Piece)
    (hleg : does_collide NC NR p board = false)
    (hcell : ∃ sq ∈ p.squares, 0 ≤ p.top_left.y + sq.y) :
    ∃ k : Int, get_interception_point NC NR NR.toNat p board = some k := by
  obtain ⟨sq, hsq, hy⟩ := hcell
  have hylt : p.top_left.y + sq.y < NR := by
    by_contra hge
    have hcol : does_collide NC NR p board = true :=
      (does_collide_eq_true_iff NC NR p board).mpr
        ⟨sq, hsq, Or.inl (Or.inr (Or.inr (by omega)))⟩
    rw [hleg] at hcol
    cases hcol
  have hNR : 0 < NR := by omega
  have hcast : ((NR.toNat : Int)) = NR := Int.toNat_of_nonneg (le_of_lt hNR)
  cases h : get_interception_point NC NR NR.toNat p board with
  | some k => exact ⟨k, rfl⟩
  | none =>
    exfalso
    have hfree := gip_none_no_collide NC NR board NR.toNat p h NR.toNat (by omega) (le_refl _)
    have hcol : does_collide NC NR (movedDownBy p (NR.toNat : Int)) board = true :=
      (does_collide_eq_true_iff NC NR _ board).mpr
        ⟨sq, hsq, Or.inl (Or.inr (Or.inr (by simp [movedDownBy]; omega)))⟩
    rw [hfree] at hcol
    cases hcol

theorem movePhase_hard_drop (NC NR : Int) (s : Inner) (p : Piece) (k : Int)
    (hcp : s.current_piece = some p)
    (hsend : s.should_send_to_bottom = true)
    (hx : s.x_to_move = 0) (hrot : s.rotations_to_perform = 0)
    (hgip : get_interception_point NC NR NR.toNat p s.board_pieces = some k) :
    (movePhase NC NR s).current_piece = some (movedDownBy p k) ∧
    (movePhase NC NR s).frames_since_last_successful_move = FRAMES_BEFORE_WE_SEAL_MOVE + 1 := by
  unfold movePhase
  rw [hcp]
  dsimp only
  rw [hsend, if_pos rfl]
  dsimp only
  rw [moveDownLoop_eq_of_gip NC NR s.board_pieces NR.toNat p true k hgip]
  dsimp only
  rw [hx, hrot]
  simp only [Int.natAbs_zero, moveXLoop, rotLoop, Bool.not_true, Bool.and_false,
    Bool.or_false, Bool.or_self]
  refine ⟨?_, ?_⟩ <;> trivial

/-- Claim C2 (amended): from a legal position in which at least one occupied
cell of the piece has row ≥ 0 (true of every piece that ever enters play),
an update performing a hard drop (and no other pending input) moves the
piece down by exactly the number of rows the interception calculation
returns, and leaves the lock-delay counter one past the threshold, so the
lock branch fires on the next eligible update. -/
theorem claim2_hard_drop (NC NR : Int) (s : Inner) (p : Piece)
    (hw : s.frames_to_wait = 0) (hsw : s.should_swap_piece = false)
    (hcp : s.current_piece = some p)
    (hcnt : s.frames_since_last_successful_move ≤ FRAMES_BEFORE_WE_SEAL_MOVE)
    (hsend : s.should_send_to_bottom = true)
    (hx : s.x_to_move = 0) (hrot : s.rotations_to_perform = 0)
    (hleg : does_collide NC NR p s.board_pieces = false)
    (hcell : ∃ sq ∈ p.squares, 0 ≤ p.top_left.y + sq.y) :
    ∃ k : Int, get_interception_point NC NR NR.toNat p s.board_pieces = some k ∧
      (Inner.update NC NR s).current_piece = some (movedDownBy p k) ∧
      (Inner.update NC NR s).frames_since_last_successful_move =
        FRAMES_BEFORE_WE_SEAL_MOVE + 1 := by
  obtain ⟨k, hk⟩ := gip_some_of_cell NC NR s.board_pieces p hleg hcell
  have hupd : Inner.update NC NR s = movePhase NC NR s := by
    unfold Inner.update
    rw [hw]
    split
    · next hlt => exact absurd hlt (by omega)
    · dsimp only
      rw [applySwap_of_not_requested s hsw]
      split
      · next heq => rw [hcp] at heq; cases heq
      · next cp heq =>
        rw [if_neg (by unfold FRAMES_BEFORE_WE_SEAL_MOVE at hcnt ⊢; omega)]
  rw [hupd]
  obtain ⟨h1, h2⟩ := movePhase_hard_drop NC NR s p k hcp hsend hx hrot hk
  exact ⟨k, hk, h1, h2⟩

/-- A one-cell piece far above the board: every position it can reach
within `NUM_ROWS` downward steps is still collision-free, so the hard-drop
loop (capped at `NUM_ROWS` steps) stops short of the interception point. -/
def dropPieceNeg : Piece :=
  { top_left := { x := 0, y := -25 }, size := 1, squares := [⟨0, 0⟩], color := COLOR_LINE }

def dropStateNeg : Inner :=
  { Inner.new (fun _ => 0) with
      current_piece := some dropPieceNeg, should_send_to_bottom := true }

/-- Claim C2 fails as stated: `dropPieceNeg` sits legally at row −25 of an
empty 10×20 board; the interception calculation returns 44, but the
hard-drop update moves the piece down only 20 rows (the loop is capped at
`NUM_ROWS` steps). -/
theorem claim2_counterexample :
    does_collide 10 20 dropPieceNeg [] = false ∧
    get_interception_point 10 20 50 dropPieceNeg [] = some 44 ∧
    (Inner.update 10 20 dropStateNeg).current_piece = some (movedDownBy dropPieceNeg 20) ∧
    (Inner.update 10 20 dropStateNeg).current_piece ≠ some (movedDownBy dropPieceNeg 44) := by
  refine ⟨rfl, by decide, by decide, by decide⟩

def dropWitnessState : Inner :=
  { Inner.new (fun _ => 0) with
      current_piece := some (get_random_piece 10 4), should_send_to_bottom := true }

theorem claim2_witness :
    dropWitnessState.frames_to_wait = 0 ∧ dropWitnessState.should_swap_piece = false ∧
    dropWitnessState.current_piece = some (get_random_piece 10 4) ∧
    dropWitnessState.frames_since_last_successful_move ≤ FRAMES_BEFORE_WE_SEAL_MOVE ∧
    dropWitnessState.should_send_to_bottom = true ∧
    dropWitnessState.x_to_move = 0 ∧ dropWitnessState.rotations_to_perform = 0 ∧
    does_collide 10 20 (get_random_piece 10 4) dropWitnessState.board_pieces = false ∧
    (∃ sq ∈ (get_random_piece 10 4).squares, 0 ≤ (get_random_piece 10 4).top_left.y + sq.y) ∧
    (∃ k : Int,
      get_interception_point 10 20 (20 : Int).toNat (get_random_piece 10 4)
        dropWitnessState.board_pieces = some k ∧
      (Inner.update 10 20 dropWitnessState).current_piece =
        some (movedDownBy (get_random_piece 10 4) k) ∧
      (Inner.update 10 20 dropWitnessState).frames_since_last_successful_move =
        FRAMES_BEFORE_WE_SEAL_MOVE + 1) :=
  ⟨rfl, rfl, rfl, by decide, rfl, rfl, rfl, by decide, by decide,
   claim2_hard_drop 10 20 dropWitnessState (get_random_piece 10 4) rfl rfl rfl (by decide)
     rfl rfl rfl (by decide) (by decide)⟩

theorem getD_set_of_lt {α : Type} (l : List α) (i : Nat) (a d : α) (h : i < l.length) :
    (l.set i a).getD i d = a := by
  rw [List.getD_eq_getElem _ _ (by simpa using h), List.getElem_set]
  simp

theorem getD_set_ne {α : Type} (l : List α) (i j : Nat) (a d : α) (h : i ≠ j) :
    (l.set i a).getD j d = l.getD j d := by
  rcases lt_or_ge j l.length with hj | hj
  · rw [List.getD_eq_getElem _ _ (by simpa using hj), List.getD_eq_getElem _ _ hj,
      List.getElem_set]
    simp [h]
  · rw [List.getD_eq_default _ _ (by simpa using hj), List.getD_eq_default _ _ hj]

theorem extendTo_getD (b : List (List Square)) (ty i : Nat) :
    (extendTo b ty).getD i [] = b.getD i [] := by
  unfold extendTo
  rcases lt_or_ge i b.length with hi | hi
  · rw [List.getD_append _ _ _ _ hi]
  · rw [List.getD_append_right _ _ _ _ hi, List.getD_eq_default _ _ hi]
    rcases lt_or_ge (i - b.length) (ty + 1 - b.length) with h2 | h2
    · rw [List.getD_eq_getElem _ _ (by simpa using h2)]
      simp
    · rw [List.getD_eq_default _ _ (by simpa using h2)]

theorem extendTo_length_gt (b : List (List Square)) (ty : Nat) :
    ty < (extendTo b ty).length := by
  simp [extendTo]
  omega

theorem addSquare_getD_self (color : String) (x y : Int) (ty : Nat)
    (b : List (List Square)) :
    (addSquare color x y ty b).getD ty [] =
      b.getD ty [] ++ [{ position := { x := x, y := y }, color := color, purgatory := false }] := by
  unfold addSquare
  rw [getD_set_of_lt _ _ _ _ (extendTo_length_gt b ty), extendTo_getD]

theorem addSquare_getD_ne (color : String) (x y : Int) (ty i : Nat)
    (b : List (List Square)) (h : ty ≠ i) :
    (addSquare color x y ty b).getD i [] = b.getD i [] := by
  unfold addSquare
  rw [getD_set_ne _ _ _ _ _ h, extendTo_getD]

theorem mergeFold_mem_mono (NR : Int) (p : Piece) (l : List Vector2D)
    (acc : List (List Square) × List Nat) (i : Nat) (c : Square)
    (hc : c ∈ acc.1.getD i []) :
    c ∈ (l.foldl (mergeStep NR p) acc).1.getD i [] := by
  induction l generalizing acc with
  | nil => exact hc
  | cons sq rest ih =>
    rw [List.foldl_cons]
    apply ih
    unfold mergeStep
    dsimp only
    by_cases hi : (NR - (p.top_left.y + sq.y)).toNat = i
    · rw [← hi] at hc ⊢
      rw [addSquare_getD_self]
      exact List.mem_append_left _ hc
    · rw [addSquare_getD_ne _ _ _ _ _ _ hi]
      exact hc

theorem mergeFold_mem (NR : Int) (p : Piece) (l : List Vector2D)
    (acc : List (List Square) × List Nat) (sq : Vector2D) (hsq : sq ∈ l) :
    ({ position := { x := p.top_left.x + sq.x, y := p.top_left.y + sq.y },
       color := p.color, purgatory := false } : Square) ∈
      (l.foldl (mergeStep NR p) acc).1.getD ((NR - (p.top_left.y + sq.y)).toNat) [] := by
  induction l generalizing acc with
  | nil => cases hsq
  | cons sq0 rest ih =>
    rw [List.foldl_cons]
    rcases List.mem_cons.mp hsq with h | h
    · subst h
      apply mergeFold_mem_mono
      unfold mergeStep
      dsimp only
      rw [addSquare_getD_self]
      exact List.mem_append_right _ (by simp)
    · exact ih _ h

theorem isEmpty_markRow (row : List Square) : (markRow row).isEmpty = row.isEmpty := by
  cases row <;> rfl

theorem length_markRow (row : List Square) : (markRow row).length = row.length := by
  simp [markRow]

theorem set_getD_length (b : List (List Square)) (i j : Nat) (r : List Square) :
    ((b.set i r).getD j []).length =
      if i = j ∧ i < b.length then r.length else (b.getD j []).length := by
  by_cases hij : i = j
  · subst hij
    rcases lt_or_ge i b.length with h | h
    · rw [getD_set_of_lt _ _ _ _ h, if_pos ⟨rfl, h⟩]
    · rw [List.set_eq_of_length_le h, if_neg (by omega)]
  · rw [getD_set_ne _ _ _ _ _ hij, if_neg (by tauto)]

theorem markLoop_getD_length (NC : Int) (rows : List Nat) (b : List (List Square))
    (rd : Bool) (j : Nat) :
    ((markLoop NC rows b rd).1.getD j []).length = ((b.getD j []).length) := by
  induction rows generalizing b rd with
  | nil => rfl
  | cons i rest ih =>
    unfold markLoop
    dsimp only
    split
    · rw [ih, set_getD_length]
      split
      · next hcond => rw [← hcond.1, length_markRow]
      · rfl
    · exact ih b rd

theorem markLoop_purg_stable (NC : Int) (rows : List Nat) (b : List (List Square))
    (rd : Bool) (i : Nat)
    (h : ∀ c ∈ b.getD i [], c.purgatory = true) :
    ∀ c ∈ (markLoop NC rows b rd).1.getD i [], c.purgatory = true := by
  induction rows generalizing b rd with
  | nil => exact h
  | cons r rest ih
  =>
    unfold markLoop
    dsimp only
    split
    · apply ih
      intro c hc
      by_cases hri : r = i
      · subst hri
        rcases lt_or_ge r b.length with hlt | hge
        · rw [getD_set_of_lt _ _ _ _ hlt] at hc
          simp only [markRow, List.mem_map] at hc
          obtain ⟨c0, _, rfl⟩ := hc
          rfl
        · rw [List.set_eq_of_length_le hge] at hc
          exact h c hc
      · rw [getD_set_ne _ _ _ _ _ hri] at hc
        exact h c hc
    · exact ih b rd h

theorem markLoop_marks (NC : Int) (rows : List Nat) (b : List (List Square))
    (rd : Bool) (i : Nat) (hi : i ∈ rows)
    (hlen : (b.getD i []).length = NC.toNat) :
    ∀ c ∈ (markLoop NC rows b rd).1.getD i [], c.purgatory = true := by
  induction rows generalizing b rd with
  | nil => cases hi
  | cons r rest ih =>
    unfold markLoop
    dsimp only
    by_cases hri : r = i
    · subst hri
      rw [if_pos hlen]
      apply markLoop_purg_stable
      intro c hc
      rcases lt_or_ge r b.length with hlt | hge
      · rw [getD_set_of_lt _ _ _ _ hlt] at hc
        simp only [markRow, List.mem_map] at hc
        obtain ⟨c0, _, rfl⟩ := hc
        rfl
      · rw [List.set_eq_of_length_le hge, List.getD_eq_default _ _ hge] at hc
        cases hc
    · have h1 : i ∈ rest := by
        rcases List.mem_cons.mp hi with h | h
        · exact absurd h.symm hri
        · exact h
      split
      · apply ih _ _ h1
        rw [set_getD_length, if_neg (by tauto)]
        exact hlen
      · exact ih b rd h1 hlen

theorem markLoop_mem_proj (NC : Int) (rows : List Nat) (b : List (List Square))
    (rd : Bool) (i : Nat) (c : Square) (hc : c ∈ b.getD i []) :
    ∃ c' ∈ (markLoop NC rows b rd).1.getD i [],
      c'.position = c.position ∧ c'.color = c.color := by
  induction rows generalizing b rd c with
  | nil => exact ⟨c, hc, rfl, rfl⟩
  | cons r rest ih =>
    unfold markLoop
    dsimp only
    split
    · by_cases hri : r = i
      · subst hri
        rcases lt_or_ge r b.length with hlt | hge
        · have hc2 : ({ c with purgatory := true } : Square) ∈
              (b.set r (markRow (b.getD r []))).getD r [] := by
            rw [getD_set_of_lt _ _ _ _ hlt]
            simp only [markRow, List.mem_map]
            exact ⟨c, hc, rfl⟩
          obtain ⟨c', hc', h1, h2⟩ := ih _ _ _ hc2
          exact ⟨c', hc', h1, h2⟩
        · rw [List.set_eq_of_length_le hge]
          exact ih _ _ _ hc
      · have hc2 : c ∈ (b.set r (markRow (b.getD r []))).getD i [] := by
          rw [getD_set_ne _ _ _ _ _ hri]
          exact hc
        exact ih _ _ _ hc2
    · exact ih b rd c hc

theorem markLoop_redraw (NC : Int) (rows : List Nat) (b : List (List Square)) (rd : Bool) :
    (markLoop NC rows b rd).2 =
      (rd || rows.any fun i =>
        decide ((b.getD i []).length = NC.toNat) && !(b.getD i []).isEmpty) := by
  induction rows generalizing b rd with
  | nil => simp [markLoop]
  | cons r rest ih =>
    unfold markLoop
    dsimp only
    split
    · next hfull =>
      rw [ih]
      have hfun : (fun i =>
          decide (((b.set r (markRow (b.getD r []))).getD i []).length = NC.toNat) &&
            !((b.set r (markRow (b.getD r []))).getD i []).isEmpty) =
          (fun i => decide ((b.getD i []).length = NC.toNat) && !(b.getD i []).isEmpty) := by
        funext i
        by_cases hri : r = i
        · subst hri
          rcases lt_or_ge r b.length with hlt | hge
          · rw [getD_set_of_lt _ _ _ _ hlt, length_markRow, isEmpty_markRow]
          · rw [List.set_eq_of_length_le hge]
        · rw [getD_set_ne _ _ _ _ _ hri]
      rw [hfun, List.any_cons, hfull]
      simp only [decide_True, Bool.true_and, Bool.or_assoc]
    · next hfull =>
      rw [ih, List.any_cons]
      have : decide ((b.getD r []).length = NC.toNat) = false := by
        simpa using hfull
      rw [this]
      simp only [Bool.false_and, Bool.false_or]

/-- Claim C4 (amended): when the lock-delay counter exceeds the threshold —
provided no swap is pending (a pending swap replaces the current piece
before the lock test) and `NUM_COLS` is positive — the update merges every
occupied cell of the piece into the board at bucket `NUM_ROWS - y`, flags
purgatory on every cell of every merged-into bucket holding exactly
`NUM_COLS` cells, sets the wait timer to 2 exactly when such a bucket
exists, clears the current piece — and updates are skipped (only the wait
timer is decremented) while the wait timer is positive. -/
theorem claim4_lock_merge (NC NR : Int) (s : Inner) (p : Piece)
    (hNC : 0 < NC)
    (hw : s.frames_to_wait = 0) (hsw : s.should_swap_piece = false)
    (hcp : s.current_piece = some p)
    (hcnt : FRAMES_BEFORE_WE_SEAL_MOVE < s.frames_since_last_successful_move) :
    (Inner.update NC NR s).current_piece = none ∧
    (Inner.update NC NR s).board_pieces =
      (markLoop NC (mergePiece NR p s.board_pieces).2.reverse
        (mergePiece NR p s.board_pieces).1 false).1 ∧
    (∀ sq ∈ p.squares,
      ∃ c ∈ (Inner.update NC NR s).board_pieces.getD
          ((NR - (p.top_left.y + sq.y)).toNat) [],
        c.position = { x := p.top_left.x + sq.x, y := p.top_left.y + sq.y } ∧
        c.color = p.color) ∧
    (∀ i ∈ (mergePiece NR p s.board_pieces).2,
      ((mergePiece NR p s.board_pieces).1.getD i []).length = NC.toNat →
      ∀ c ∈ (Inner.update NC NR s).board_pieces.getD i [], c.purgatory = true) ∧
    ((Inner.update NC NR s).frames_to_wait =
      if ((mergePiece NR p s.board_pieces).2.any fun i =>
            decide (((mergePiece NR p s.board_pieces).1.getD i []).length = NC.toNat)) = true
      then FRAMES_TO_SHOW_PURGATORY else 0) ∧
    (∀ t : Inner, 0 < t.frames_to_wait →
      Inner.update NC NR t = { t with frames_to_wait := t.frames_to_wait - 1 }) := by
  have hupd : Inner.update NC NR s = lockPhase NC NR p s := by
    unfold Inner.update
    rw [hw]
    split
    · next hlt => exact absurd hlt (by omega)
    · dsimp only
      rw [applySwap_of_not_requested s hsw]
      split
      · next heq => rw [hcp] at heq; cases heq
      · next cp heq =>
        rw [hcp] at heq
        injection heq with heq2
        subst heq2
        rw [if_pos hcnt]
  refine ⟨?_, ?_, ?_, ?_, ?_, ?_⟩
  · rw [hupd]; rfl
  · rw [hupd]; rfl
  · rw [hupd]
    intro sq hsq
    have hmem := mergeFold_mem NR p p.squares (s.board_pieces, []) sq hsq
    obtain ⟨c', hc', h1, h2⟩ := markLoop_mem_proj NC
      (mergePiece NR p s.board_pieces).2.reverse (mergePiece NR p s.board_pieces).1 false
      ((NR - (p.top_left.y + sq.y)).toNat) _ hmem
    exact ⟨c', hc', h1, h2⟩
  · rw [hupd]
    intro i hi hlen
    exact markLoop_marks NC (mergePiece NR p s.board_pieces).2.reverse
      (mergePiece NR p s.board_pieces).1 false i (List.mem_reverse.mpr hi) hlen
  · rw [hupd]
    show (if (markLoop NC (mergePiece NR p s.board_pieces).2.reverse
              (mergePiece NR p s.board_pieces).1 false).2 = true
          then FRAMES_TO_SHOW_PURGATORY else s.frames_to_wait) = _
    rw [markLoop_redraw, Bool.false_or, List.any_reverse, hw]
    have hfg : (fun i =>
        decide (((mergePiece NR p s.board_pieces).1.getD i []).length = NC.toNat) &&
          !((mergePiece NR p s.board_pieces).1.getD i []).isEmpty) =
        (fun i =>
          decide (((mergePiece NR p s.board_pieces).1.getD i []).length = NC.toNat)) := by
      funext i
      by_cases hl : ((mergePiece NR p s.board_pieces).1.getD i []).length = NC.toNat
      · cases hrow : (mergePiece NR p s.board_pieces).1.getD i [] with
        | nil =>
          rw [hrow] at hl
          simp at hl
          omega
        | cons a l => simp
      · have hl2 : decide (((mergePiece NR p s.board_pieces).1.getD i []).length = NC.toNat)
            = false := by simpa using hl
        rw [hl2, Bool.false_and]
    rw [hfg]
  · intro t ht
    unfold Inner.update
    rw [if_pos ht]

def swapPendingLockState : Inner :=
  { Inner.new (fun _ => 0) with
      current_piece := some (get_random_piece 2 4),
      frames_since_last_successful_move := 9,
      should_swap_piece := true }

/-- Claim C4 fails as stated: with the lock-delay counter over the threshold
but a swap pending (and an empty hold slot), the update moves the current
piece to the hold slot and spawns instead of locking — no cell is merged and
the current piece is not none afterwards. -/
theorem claim4_counterexample :
    FRAMES_BEFORE_WE_SEAL_MOVE < swapPendingLockState.frames_since_last_successful_move ∧
    swapPendingLockState.current_piece = some (get_random_piece 2 4) ∧
    (Inner.update 2 4 swapPendingLockState).current_piece ≠ none ∧
    (Inner.update 2 4 swapPendingLockState).board_pieces = [] := by
  refine ⟨by decide, rfl, by decide, by decide⟩

def lockWitnessState : Inner :=
  { Inner.new (fun _ => 0) with
      current_piece := some (get_random_piece 2 4),
      frames_since_last_successful_move := 9 }

theorem claim4_witness :
    (0 : Int) < 2 ∧ lockWitnessState.frames_to_wait = 0 ∧
    lockWitnessState.should_swap_piece = false ∧
    lockWitnessState.current_piece = some (get_random_piece 2 4) ∧
    FRAMES_BEFORE_WE_SEAL_MOVE < lockWitnessState.frames_since_last_successful_move ∧
    ((Inner.update 2 4 lockWitnessState).current_piece = none ∧
     (Inner.update 2 4 lockWitnessState).board_pieces =
       (markLoop 2 (mergePiece 4 (get_random_piece 2 4) lockWitnessState.board_pieces).2.reverse
         (mergePiece 4 (get_random_piece 2 4) lockWitnessState.board_pieces).1 false).1 ∧
     (∀ sq ∈ (get_random_piece 2 4).squares,
       ∃ c ∈ (Inner.update 2 4 lockWitnessState).board_pieces.getD
           ((4 - ((get_random_piece 2 4).top_left.y + sq.y)).toNat) [],
         c.position = { x := (get_random_piece 2 4).top_left.x + sq.x,
                        y := (get_random_piece 2 4).top_left.y + sq.y } ∧
         c.color = (get_random_piece 2 4).color) ∧
     (∀ i ∈ (mergePiece 4 (get_random_piece 2 4) lockWitnessState.board_pieces).2,
       ((mergePiece 4 (get_random_piece 2 4) lockWitnessState.board_pieces).1.getD i []).length =
           (2 : Int).toNat →
       ∀ c ∈ (Inner.update 2 4 lockWitnessState).board_pieces.getD i [], c.purgatory = true) ∧
     ((Inner.update 2 4 lockWitnessState).frames_to_wait =
       if ((mergePiece 4 (get_random_piece 2 4) lockWitnessState.board_pieces).2.any fun i =>
             decide (((mergePiece 4 (get_random_piece 2 4)
               lockWitnessState.board_pieces).1.getD i []).length = (2 : Int).toNat)) = true
       then FRAMES_TO_SHOW_PURGATORY else 0) ∧
     (∀ t : Inner, 0 < t.frames_to_wait →
       Inner.update 2 4 t = { t with frames_to_wait := t.frames_to_wait - 1 })) :=
  ⟨by decide, rfl, rfl, rfl, by decide,
   claim4_lock_merge 2 4 lockWitnessState (get_random_piece 2 4) (by decide) rfl rfl rfl
     (by decide)⟩

/-- One frame of play on a 10×6 board with the hard-drop key pressed before
every tick and a random stream that always yields the square piece. -/
def pressAndTick (s : Inner) : Inner := Inner.tick 10 6 (Inner.handle_key s " ")

/-- The state after 45 such frames from a fresh game: square pieces are
hard-dropped onto a single column until the stack reaches the spawn rows;
the next piece spawns overlapping the stack, can never move, and is merged
into the board on top of the existing cells. -/
def toppedOutState : Inner :=
  (List.range 45).foldl (fun s _ => pressAndTick s) (Inner.new fun _ => 4)

/-- All locked cell positions of a board. -/
def allCells (board : List (List Square)) : List Vector2D :=
  (board.map fun r => r.map fun c => c.position).flatten

/-- Some position occurs twice in the list. -/
def hasDupCell : List Vector2D → Bool
  | [] => false
  | v :: rest => rest.any (fun w => decide (v = w)) || hasDupCell rest

theorem reachable_pressAndTick {s : Inner} (h : Reachable 10 6 s) :
    Reachable 10 6 (pressAndTick s) :=
  Reachable.tick _ (Reachable.key _ " " h)

theorem toppedOutState_reachable : Reachable 10 6 toppedOutState := by
  have hfold : ∀ (l : List Nat) (s : Inner), Reachable 10 6 s →
      Reachable 10 6 (l.foldl (fun s _ => pressAndTick s) s) := by
    intro l
    induction l with
    | nil => intro s h; exact h
    | cons a rest ih => intro s h; exact ih _ (reachable_pressAndTick h)
  exact hfold _ _ (Reachable.new _)

set_option maxRecDepth 400000 in
/-- Claim C6 fails on the code: the state reached by hard-dropping eleven
square pieces onto one column of a 10×6 board is reachable from the initial
state by `tick` and `handle_key`, yet its board holds two locked cells with
the same (column, row) position — the lock branch merges a piece that
spawned overlapping the stack (there is no top-out check), so the
no-duplicate invariant is violated. -/
theorem claim6_duplicate_cells :
    Reachable 10 6 toppedOutState ∧
    hasDupCell (allCells toppedOutState.board_pieces) = true :=
  ⟨toppedOutState_reachable, by decide⟩

end RustyTetris
